import Mathlib

/-!
Verification of the randomtemp process proxy (src/main.rs).

The development shallowly embeds the two core components of the program:

* the self-aware executable resolver (`get_pretend_executable` and its
  helpers `find_executable_in_path`, `find_executable_in_path_by_name`,
  `find_executable_in_path_by_env`, `is_same_file_stem`), and
* the isolated-retry execution loop of `main` together with the launch
  construction of `try_run_with_new_temp` (both platform variants) and the
  windows-only `quote_arg` shell-quoting macro.

Operating-system paths are modelled by `OsString`: a textual content plus a
flag recording whether the content is valid UTF-8 (Rust `OsString` values
are compared bytewise; `to_str` succeeds exactly on the valid ones).  Path
inspection (`file_name`, `file_stem`, `extension`, absoluteness) follows the
Unix rules of Rust `std::path`.  The `which` crate's PATH search is modelled
by an explicit search-path configuration: an ordered list of directories,
each listing the executable names it contains; the search returns the first
directory containing the requested name, joined with it.
-/

namespace Randomtemp

/-- Model of Rust `OsString`/`PathBuf`: the textual content of the path
together with a flag recording whether the content is valid UTF-8.
Equality is structural, matching bytewise `PathBuf` equality. -/
structure OsString where
  valid : Bool
  text : String
deriving DecidableEq

/-- Split a character list at every `/`, keeping empty chunks
(the chunk list is never empty). -/
def splitOnSlash : List Char → List (List Char)
  | [] => [[]]
  | c :: rest =>
    match splitOnSlash rest with
    | [] => [[]]
    | cur :: done => if c = '/' then [] :: cur :: done else (c :: cur) :: done

/-- Normal components of a path under the Unix rules of `std::path`:
split on `/` and drop empty chunks and `.` chunks. -/
def pathComponents (s : String) : List (List Char) :=
  (splitOnSlash s.data).filter (fun c => c ≠ [] ∧ c ≠ ['.'])

/-- Rust `Path::file_name`: the final normal component, unless it is `..`. -/
def file_name (s : String) : Option (List Char) :=
  match (pathComponents s).getLast? with
  | some c => if c = ['.', '.'] then none else some c
  | none => none

/-- Stem of a file name per Rust `Path::file_stem`: the portion before the
final dot, except that a name without dots, or whose only dot leads it,
is its own stem. -/
def file_stem_of_name (name : List Char) : List Char :=
  if '.' ∈ name then
    let ext := (name.reverse.takeWhile (fun c => c ≠ '.')).reverse
    let stem := name.take (name.length - ext.length - 1)
    if stem = [] then name else stem
  else name

/-- Extension of a file name per Rust `Path::extension`: the portion after
the final dot, absent when the name has no dots or its only dot leads it. -/
def extension_of_name (name : List Char) : Option (List Char) :=
  if '.' ∈ name then
    let ext := (name.reverse.takeWhile (fun c => c ≠ '.')).reverse
    let stem := name.take (name.length - ext.length - 1)
    if stem = [] then none else some ext
  else none

/-- Rust `Path::file_stem` on a whole path. -/
def file_stem (s : String) : Option (List Char) :=
  (file_name s).map file_stem_of_name

/-- Rust `Path::extension` on a whole path. -/
def extension (s : String) : Option (List Char) :=
  (file_name s).bind extension_of_name

/-- Source `is_absolute_path` under Unix rules: the path starts with `/`. -/
def is_absolute_path (s : String) : Bool :=
  match s.data with
  | [] => false
  | c :: _ => c = '/'

/-- One search-path directory: its location and the names of the
executables it contains. -/
structure SearchEntry where
  dir : OsString
  files : List String
deriving DecidableEq

/-- The inputs the resolver draws from the process environment:
the `RANDOMTEMP_EXECUTABLE` override, the running binary's own resolved
path (`env::current_exe`, absent when that call fails), and the search
path visible to the `which` crate. -/
structure Env where
  override : Option String
  currentExe : Option OsString
  searchPath : List SearchEntry

/-- Join a directory and a file name, as the `which` crate does when it
returns a hit; the result is valid UTF-8 exactly when the directory is. -/
def joinPath (dir : OsString) (name : List Char) : OsString :=
  ⟨dir.valid, dir.text ++ "/" ++ String.mk name⟩

/-- Model of `which::which`: the first search-path directory containing an
executable of the requested name, joined with that name. -/
def whichLookup : List SearchEntry → List Char → Option OsString
  | [], _ => none
  | e :: rest, name =>
    if String.mk name ∈ e.files then some (joinPath e.dir name)
    else whichLookup rest name

/-- Source `get_file_name` (via `Path::file_name` on an optional path). -/
def get_file_name (pbopt : Option OsString) : Option (List Char) :=
  pbopt.bind fun pb => file_name pb.text

/-- Source `get_file_stem` (via `Path::file_stem` on an optional path). -/
def get_file_stem (pbopt : Option OsString) : Option (List Char) :=
  pbopt.bind fun pb => file_stem pb.text

/-- Source `is_same_file_stem`: both stems exist and coincide. -/
def is_same_file_stem (pbopt1 pbopt2 : Option OsString) : Bool :=
  match get_file_stem pbopt1, get_file_stem pbopt2 with
  | some fs1, some fs2 => fs1 = fs2
  | _, _ => false

/-- Source `get_current_exe_pathbuf`. -/
def get_current_exe_pathbuf (env : Env) : Except String OsString :=
  match env.currentExe with
  | some p => .ok p
  | none => .error "Cannot get the current working executable"

/-- Source `find_executable_in_path_by_name`: search PATH for `p`'s file
name and keep the hit only when it differs from `cp`. -/
def find_executable_in_path_by_name (env : Env) (p cp : OsString) :
    Option OsString :=
  (get_file_name (some p)).bind fun s =>
    (whichLookup env.searchPath s).bind fun np =>
      if np = cp then none else some np

/-- Error message of `find_executable_in_path` in the source. -/
def cannotFindMsg : String :=
  "Cannot find which executable to pretend, either specify RANDOMTEMP_EXECUTABLE through the environmental variables or rename the executable to another one in PATH"

/-- Error message of `find_executable_in_path_by_env` in the source. -/
def invalidExecMsg : String :=
  "RANDOMTEMP_EXECUTABLE points to an invalid executable"

/-- Error message of the UTF-8 conversion in `get_pretend_executable`. -/
def utf8Msg : String :=
  "Cannot convert RANDOMTEMP_EXECUTABLE to a UTF-8 string"

/-- Source `find_executable_in_path`: no-override resolution by the running
binary's own file name. -/
def find_executable_in_path (env : Env) : Except String OsString :=
  match get_current_exe_pathbuf env with
  | .error e => .error e
  | .ok p =>
    match find_executable_in_path_by_name env p p with
    | some r => .ok r
    | none => .error cannotFindMsg

/-- Source `find_executable_in_path_by_env`: resolution of a non-absolute
override string, with the empty self-pretend sentinel and the bare
fallback for extensionless overrides. -/
def find_executable_in_path_by_env (env : Env) (exec : String) :
    Except String OsString :=
  let p : OsString := ⟨true, exec⟩
  match get_current_exe_pathbuf env with
  | .error e => .error e
  | .ok cp =>
    if is_same_file_stem (some p) (some cp) then .error ""
    else
      match find_executable_in_path_by_name env p cp with
      | some np => .ok np
      | none =>
        if (extension exec).isSome then .error invalidExecMsg
        else .ok p

/-- The `PathBuf` value produced inside source `get_pretend_executable`
before the final UTF-8 conversion: absolute overrides verbatim, other
overrides via `find_executable_in_path_by_env` (whose empty sentinel falls
through to the no-override branch), no override via
`find_executable_in_path`.  An `.error` value models `error_exit!` with
that message. -/
def pretendPathBuf (env : Env) : Except String OsString :=
  match env.override with
  | some exec =>
    if is_absolute_path exec then .ok ⟨true, exec⟩
    else
      match find_executable_in_path_by_env env exec with
      | .ok pb => .ok pb
      | .error e => if e = "" then find_executable_in_path env else .error e
  | none => find_executable_in_path env

/-- Source `get_pretend_executable`: the resolved path converted to a
UTF-8 string, or a fatal error. -/
def get_pretend_executable (env : Env) : Except String String :=
  match pretendPathBuf env with
  | .error e => .error e
  | .ok pb => if pb.valid then .ok pb.text else .error utf8Msg

/-- Model of Rust `process::ExitStatus`: `code` is the numeric exit code of
a normal termination, `none` for a signalled termination. -/
structure ExitStatus where
  code : Option Int
deriving DecidableEq

/-- Rust `ExitStatus::success`: normal termination with code zero. -/
def ExitStatus.success (s : ExitStatus) : Bool :=
  s.code = some 0

/-- Observable outcome of a terminating run of `main`'s loop: how many
times `try_run_with_new_temp` ran, the `N` values of the
`Retry attempt: N` lines printed to standard output in order, and the
code passed to `process::exit`. -/
structure LoopResult where
  attempts : Nat
  prints : List Nat
  exitCode : Int
deriving DecidableEq

/-- One step of `main`'s retry loop, run with explicit fuel.  The child's
behaviour is `prog : Nat → ExitStatus`, indexed by the number of attempts
already made.  `retry_times` is the source's `u8` counter, so the
increment is taken modulo 256; `attempts` counts launches and `prints`
accumulates the printed retry ordinals.  `none` means the fuel ran out
before the loop's own exit condition fired. -/
def mainLoop (prog : Nat → ExitStatus) (max_trial : Nat) :
    Nat → Nat → Nat → List Nat → Option LoopResult
  | 0, _, _, _ => none
  | fuel + 1, retry_times, attempts, prints =>
    let prints1 := if retry_times > 0 then prints ++ [retry_times] else prints
    let status := prog attempts
    let retry_times1 := (retry_times + 1) % 256
    let code := status.code.getD 1
    if status.success = true ∨ retry_times1 > max_trial then
      some ⟨attempts + 1, prints1, code⟩
    else
      mainLoop prog max_trial fuel retry_times1 (attempts + 1) prints1

/-- The retry loop of source `main`, started from its initial state. -/
def runMain (prog : Nat → ExitStatus) (max_trial fuel : Nat) :
    Option LoopResult :=
  mainLoop prog max_trial fuel 0 0 []

/-- Source `main`: resolution runs first and a resolution error terminates
the process before the loop performs any attempt. -/
def runTool (env : Env) (prog : Nat → ExitStatus) (max_trial fuel : Nat) :
    Except String (Option LoopResult) :=
  match get_pretend_executable env with
  | .error e => .error e
  | .ok _ => .ok (runMain prog max_trial fuel)

/-- Source `quote_arg!`: wrap the argument in double quotes exactly when it
contains a space character. -/
def quote_arg (a : String) : String :=
  if ' ' ∈ a.data then "\"" ++ a ++ "\"" else a

/-- The `RANDOMTEMP_COMMANDLINE` string assembled by the windows branch of
`try_run_with_new_temp`: the quoted program name followed by each quoted
argument, separated by single spaces. -/
def build_command_line (executable : String) (argv : List String) : String :=
  argv.foldl (fun acc arg => acc ++ " " ++ quote_arg arg) (quote_arg executable)

/-- A child-process launch as constructed by `try_run_with_new_temp`:
program image, argument list, and the environment variables the tool sets
for the child (in the order the source sets them). -/
structure Launch where
  program : String
  args : List String
  envVars : List (String × String)
deriving DecidableEq

/-- The windows variant of source `try_run_with_new_temp`: direct launch
for an absolute program path, otherwise a `cmd /q /c` launch that passes
the assembled command line through `RANDOMTEMP_COMMANDLINE`. -/
def try_run_with_new_temp_windows (executable tmp_path : String)
    (argv : List String) : Launch :=
  if is_absolute_path executable then
    ⟨executable, argv, [("TEMP", tmp_path), ("TMP", tmp_path)]⟩
  else
    ⟨"cmd", ["/q", "/c", "%RANDOMTEMP_COMMANDLINE%"],
      [("TEMP", tmp_path), ("TMP", tmp_path),
        ("RANDOMTEMP_COMMANDLINE", build_command_line executable argv)]⟩

/-- The unix variant of source `try_run_with_new_temp`: direct launch for
an absolute program path, otherwise `sh -c` with the program name and the
forwarded arguments. -/
def try_run_with_new_temp_unix (executable tmp_path : String)
    (argv : List String) : Launch :=
  if is_absolute_path executable then
    ⟨executable, argv, [("TMPDIR", tmp_path)]⟩
  else
    ⟨"sh", ["-c", executable] ++ argv, [("TMPDIR", tmp_path)]⟩

/-- A filesystem event of the retry loop: creation or removal of a scratch
directory. -/
inductive FsEvent where
  | create (d : String)
  | remove (d : String)
deriving DecidableEq

/-- Effect of one filesystem event on the list of live scratch
directories. -/
def applyEvent (live : List String) : FsEvent → List String
  | .create d => live ++ [d]
  | .remove d => live.erase d

/-- Live scratch directories after a whole event sequence. -/
def applyAll (live : List String) (es : List FsEvent) : List String :=
  es.foldl applyEvent live

/-- Every intermediate live-directory state along an event sequence,
including the initial and final states. -/
def statesAlong (live : List String) : List FsEvent → List (List String)
  | [] => [live]
  | e :: es => live :: statesAlong (applyEvent live e) es

/-- Filesystem events of one attempt of `try_run_with_new_temp`: the
`TempDir::new_in` creation at entry and the drop-triggered removal when
the attempt's scope ends, on every exit path. -/
def attemptEvents (d : String) : List FsEvent :=
  [.create d, .remove d]

/-- Modelled from the spec: the `tempfile` crate's unique-directory-creation
primitive (`TempDir::new_in`, not part of this repository) is an oracle
`dirs` handing each attempt its fresh directory name; uniqueness across
attempts is the primitive's contract, stated as injectivity where needed.
`scratchTrace dirs n` is the filesystem event trace of the first `n`
attempts of the retry loop. -/
def scratchTrace (dirs : Nat → String) : Nat → List FsEvent
  | 0 => []
  | n + 1 => scratchTrace dirs n ++ attemptEvents (dirs n)

/-- The scratch directories created by the first `n` attempts, in order. -/
def createdDirs (dirs : Nat → String) (n : Nat) : List String :=
  (List.range n).map dirs

/-- Modelled from the spec: re-tokenization performed by the windows
command interpreter (not part of this repository) on the expanded
`RANDOMTEMP_COMMANDLINE`: split into tokens at spaces, except that a
double quote toggles a mode in which spaces are ordinary characters;
the quotes themselves are dropped. -/
def tokGo : List Char → Bool → List Char → List (List Char) → List (List Char)
  | [], _, cur, acc => if cur = [] then acc else acc ++ [cur]
  | c :: cs, inQ, cur, acc =>
    if c = '"' then tokGo cs (!inQ) cur acc
    else if c = ' ' ∧ inQ = false then
      if cur = [] then tokGo cs inQ [] acc
      else tokGo cs inQ [] (acc ++ [cur])
    else tokGo cs inQ (cur ++ [c]) acc

/-- Re-tokenization of a whole command line, from the initial state. -/
def retokenize (s : String) : List (List Char) :=
  tokGo s.data false [] []

/-! Resolver theorems. -/

/-- The claim-side hypothesis of C1: the search path contains an
executable whose stem matches the running binary's stem and whose
resolved location differs from the running binary's. -/
def hasDistinctSameStemEntry (env : Env) (cp : OsString) : Prop :=
  ∃ e ∈ env.searchPath, ∃ nm ∈ e.files,
    file_stem nm = file_stem cp.text ∧ (file_stem nm).isSome = true ∧
    joinPath e.dir nm.data ≠ cp

/-- Running binary used by the concrete resolver configurations below. -/
def cpA : OsString := ⟨true, "/a/randomtemp"⟩

/-- No override; the search path lists the running binary's own directory
first and a second directory holding a same-named executable after it. -/
def envSelfFirst : Env :=
  ⟨none, some cpA,
    [⟨⟨true, "/a"⟩, ["randomtemp"]⟩, ⟨⟨true, "/b"⟩, ["randomtemp"]⟩]⟩

/-- Claim C1 (counterexample): with no override and a search path that
contains a same-stem executable at a different location (`/b/randomtemp`),
resolution nevertheless fails, because the first search hit is the running
binary itself and the search gives up instead of moving on. -/
theorem claim1_counterexample :
    envSelfFirst.override = none ∧ envSelfFirst.currentExe = some cpA ∧
    hasDistinctSameStemEntry envSelfFirst cpA ∧
    get_pretend_executable envSelfFirst = .error cannotFindMsg := by
  refine ⟨rfl, rfl, ?_, rfl⟩
  refine ⟨⟨⟨true, "/b"⟩, ["randomtemp"]⟩, ?_, "randomtemp", ?_, rfl, rfl, ?_⟩
  · simp [envSelfFirst]
  · simp
  · decide

/-- Claim C1 (amended): with no override, resolution returns the first
search-path hit for the running binary's file name whenever that hit
differs from the running binary's own resolved location; it never returns
the running binary's own location; and it fails with the
cannot-determine message when there is no hit or the first hit is the
running binary itself. -/
theorem claim1_no_override_first_hit (env : Env) (cp : OsString)
    (f : List Char)
    (hov : env.override = none)
    (hcp : env.currentExe = some cp)
    (hfn : file_name cp.text = some f) :
    (∀ np, whichLookup env.searchPath f = some np → np ≠ cp →
      pretendPathBuf env = .ok np) ∧
    (∀ pb, pretendPathBuf env = .ok pb → pb ≠ cp) ∧
    (whichLookup env.searchPath f = none →
      pretendPathBuf env = .error cannotFindMsg) ∧
    (whichLookup env.searchPath f = some cp →
      pretendPathBuf env = .error cannotFindMsg) := by
  have hpp : pretendPathBuf env = find_executable_in_path env := by
    unfold pretendPathBuf
    rw [hov]
  have hname : find_executable_in_path_by_name env cp cp =
      (whichLookup env.searchPath f).bind
        (fun np => if np = cp then none else some np) := by
    unfold find_executable_in_path_by_name get_file_name
    simp [hfn]
  have hfe : find_executable_in_path env =
      match find_executable_in_path_by_name env cp cp with
      | some r => .ok r
      | none => .error cannotFindMsg := by
    unfold find_executable_in_path get_current_exe_pathbuf
    rw [hcp]
  refine ⟨?_, ?_, ?_, ?_⟩
  · intro np hw hne
    rw [hpp, hfe, hname, hw]
    simp [hne]
  · intro pb hpb
    rw [hpp, hfe, hname] at hpb
    rcases hw : whichLookup env.searchPath f with _ | np
    · rw [hw] at hpb
      simp at hpb
    · rw [hw] at hpb
      by_cases hnp : np = cp
      · simp [hnp] at hpb
      · simp [hnp] at hpb
        rw [← hpb]
        exact hnp
  · intro hw
    rw [hpp, hfe, hname, hw]
    rfl
  · intro hw
    rw [hpp, hfe, hname, hw]
    simp
/-- No override; the first search-path hit for the running binary's name
is a different executable, `/b/randomtemp`. -/
def envOtherFirst : Env :=
  ⟨none, some cpA,
    [⟨⟨true, "/b"⟩, ["randomtemp"]⟩, ⟨⟨true, "/a"⟩, ["randomtemp"]⟩]⟩

/-- Witness for the amended C1: on `envOtherFirst` resolution returns the
first hit `/b/randomtemp`, not the running binary. -/
theorem claim1_no_override_first_hit_witness :
    pretendPathBuf envOtherFirst = .ok ⟨true, "/b/randomtemp"⟩ :=
  (claim1_no_override_first_hit envOtherFirst cpA "randomtemp".data
    rfl rfl rfl).1 ⟨true, "/b/randomtemp"⟩ rfl (by decide)

/-- Override equal in stem to the running binary's name; the search path
holds a same-named executable for the running binary elsewhere. -/
def envSelfPretend : Env :=
  ⟨some "randomtemp", some cpA, [⟨⟨true, "/opt"⟩, ["randomtemp"]⟩]⟩

/-- Claim C3 (counterexample): for a non-absolute override whose stem
equals the running binary's stem, the tool does not terminate silently
with a failure: the sentinel is discarded and the no-override branch runs,
here successfully resolving `/opt/randomtemp`. -/
theorem claim3_counterexample :
    envSelfPretend.override = some "randomtemp" ∧
    is_absolute_path "randomtemp" = false ∧
    is_same_file_stem (some ⟨true, "randomtemp"⟩) (some cpA) = true ∧
    get_pretend_executable envSelfPretend = .ok "/opt/randomtemp" :=
  ⟨rfl, rfl, rfl, rfl⟩

/-- Claim C3 (amended): for a non-absolute override whose stem equals the
running binary's stem, `find_executable_in_path_by_env` fails with the
empty self-pretend sentinel, and the driver then falls back to the
no-override resolution branch (searching the path for the running
binary's own name) instead of terminating. -/
theorem claim3_sentinel_falls_through (env : Env) (exec : String)
    (cp : OsString)
    (hov : env.override = some exec)
    (habs : is_absolute_path exec = false)
    (hcp : env.currentExe = some cp)
    (hstem : is_same_file_stem (some ⟨true, exec⟩) (some cp) = true) :
    find_executable_in_path_by_env env exec = .error "" ∧
    pretendPathBuf env = find_executable_in_path env := by
  have hby : find_executable_in_path_by_env env exec = .error "" := by
    unfold find_executable_in_path_by_env get_current_exe_pathbuf
    rw [hcp]
    simp [hstem]
  refine ⟨hby, ?_⟩
  unfold pretendPathBuf
  rw [hov]
  simp [habs, hby]

/-- Witness for the amended C3 on the concrete `envSelfPretend`. -/
theorem claim3_sentinel_falls_through_witness :
    find_executable_in_path_by_env envSelfPretend "randomtemp" = .error "" ∧
    pretendPathBuf envSelfPretend = find_executable_in_path envSelfPretend :=
  claim3_sentinel_falls_through envSelfPretend "randomtemp" cpA rfl rfl rfl rfl

/-- Claim C5 (confirmed): for a non-absolute override whose stem differs
from the running binary's stem and for which the search finds no usable
executable, resolution returns the bare override value when the override
carries no suffix, and fails with the invalid-executable message when it
does carry one. -/
theorem claim5_bare_override_fallback (env : Env) (exec : String)
    (cp : OsString)
    (hov : env.override = some exec)
    (habs : is_absolute_path exec = false)
    (hcp : env.currentExe = some cp)
    (hstem : is_same_file_stem (some ⟨true, exec⟩) (some cp) = false)
    (hsearch : find_executable_in_path_by_name env ⟨true, exec⟩ cp = none) :
    (extension exec = none → get_pretend_executable env = .ok exec) ∧
    ((extension exec).isSome = true →
      get_pretend_executable env = .error invalidExecMsg) := by
  have hby : find_executable_in_path_by_env env exec =
      if (extension exec).isSome then .error invalidExecMsg
      else .ok ⟨true, exec⟩ := by
    unfold find_executable_in_path_by_env get_current_exe_pathbuf
    rw [hcp]
    simp [hstem, hsearch]
  constructor
  · intro hext
    have hpp : pretendPathBuf env = .ok ⟨true, exec⟩ := by
      unfold pretendPathBuf
      rw [hov]
      simp [habs, hby, hext]
    unfold get_pretend_executable
    rw [hpp]
    rfl
  · intro hext
    have hne : invalidExecMsg ≠ "" := by decide
    have hpp : pretendPathBuf env = .error invalidExecMsg := by
      unfold pretendPathBuf
      rw [hov]
      simp [habs, hby, hext, hne]
    unfold get_pretend_executable
    rw [hpp]

/-- Override naming an executable absent from the search path, without a
suffix: the bare-fallback side of C5. -/
def envBareFallback : Env :=
  ⟨some "foo", some cpA, [⟨⟨true, "/a"⟩, ["randomtemp"]⟩]⟩

/-- Witness for C5 on `envBareFallback`: the extensionless override `foo`
is returned unresolved. -/
theorem claim5_bare_override_fallback_witness :
    get_pretend_executable envBareFallback = .ok "foo" :=
  (claim5_bare_override_fallback envBareFallback "foo" cpA
    rfl rfl rfl rfl rfl).1 rfl

/-- Claim C6 (confirmed): an absolute override is returned verbatim, for
every search-path configuration and every running-binary identity, with no
self-identity check. -/
theorem claim6_absolute_override_verbatim (env : Env) (exec : String)
    (hov : env.override = some exec)
    (habs : is_absolute_path exec = true) :
    get_pretend_executable env = .ok exec := by
  have hpp : pretendPathBuf env = .ok ⟨true, exec⟩ := by
    unfold pretendPathBuf
    rw [hov]
    simp [habs]
  unfold get_pretend_executable
  rw [hpp]
  rfl

/-- Absolute override whose stem equals the running binary's stem, with
the search path also holding same-named executables. -/
def envAbsoluteSelf : Env :=
  ⟨some "/opt/randomtemp", some cpA, [⟨⟨true, "/a"⟩, ["randomtemp"]⟩]⟩

/-- Witness for C6 on `envAbsoluteSelf`: the absolute override is returned
unchanged although its stem equals the running binary's stem. -/
theorem claim6_absolute_override_verbatim_witness :
    get_pretend_executable envAbsoluteSelf = .ok "/opt/randomtemp" :=
  claim6_absolute_override_verbatim envAbsoluteSelf "/opt/randomtemp" rfl rfl

/-- Claim C10 (confirmed): when the resolved path is not valid UTF-8 the
tool fails with the conversion diagnostic, and the failure happens in
resolution, before the loop performs any attempt; consequently a program
identifier handed to the loop always originates from a valid UTF-8
resolved path. -/
theorem claim10_utf8_guard (env : Env) :
    (∀ pb, pretendPathBuf env = .ok pb → pb.valid = false →
      get_pretend_executable env = .error utf8Msg ∧
      ∀ prog max_trial fuel,
        runTool env prog max_trial fuel = .error utf8Msg) ∧
    (∀ s, get_pretend_executable env = .ok s →
      ∃ pb, pretendPathBuf env = .ok pb ∧ pb.valid = true ∧ pb.text = s) := by
  constructor
  · intro pb hpb hval
    have hg : get_pretend_executable env = .error utf8Msg := by
      unfold get_pretend_executable
      rw [hpb]
      simp [hval]
    refine ⟨hg, ?_⟩
    intro prog max_trial fuel
    unfold runTool
    rw [hg]
  · intro s hs
    unfold get_pretend_executable at hs
    rcases hpb : pretendPathBuf env with e | pb
    · rw [hpb] at hs
      simp at hs
    · rw [hpb] at hs
      by_cases hv : pb.valid
      · simp [hv] at hs
        exact ⟨pb, rfl, hv, hs⟩
      · simp [hv] at hs

/-- No override; the only search hit lives in a directory whose path is
not valid UTF-8, so the resolved path is not valid UTF-8 either. -/
def envNonUtf8 : Env :=
  ⟨none, some cpA, [⟨⟨false, "/bad"⟩, ["randomtemp"]⟩]⟩

/-- Witness for C10 on `envNonUtf8`: resolution fails with the UTF-8
conversion diagnostic. -/
theorem claim10_utf8_guard_witness :
    get_pretend_executable envNonUtf8 = .error utf8Msg :=
  ((claim10_utf8_guard envNonUtf8).1 ⟨false, "/bad/randomtemp"⟩ rfl rfl).1

/-! Execution-loop theorems. -/

/-- With a child that never succeeds and `max_trial = 255`, the loop's
break condition never fires from any state: the `u8` retry counter stays
below 256, so `retry_times > 255` is unsatisfiable. -/
theorem mainLoop_max255_no_exit (prog : Nat → ExitStatus)
    (h : ∀ n, (prog n).success = false) :
    ∀ fuel retry_times attempts prints,
      mainLoop prog 255 fuel retry_times attempts prints = none := by
  intro fuel
  induction fuel with
  | zero => intro rt a pr; rfl
  | succ fuel ih =>
    intro rt a pr
    have hgt : ¬ ((rt + 1) % 256 > 255) := by omega
    simp only [mainLoop]
    simp [h a, hgt]
    exact ih _ _ _

/-- Claim C2 (code bug): for the configured budget 255 — accepted by the
`RANDOMTEMP_MAXTRIAL` validation, whose error message names 0..256 as the
valid range — and a program whose every launch exits non-zero, the loop
never reaches its exit condition, for any amount of fuel: the `u8` retry
counter wraps from 255 to 0, so `retry_times > max_trial` never holds and
the loop does not perform 256 attempts and exit as specified. -/
theorem claim2_budget255_never_terminates (prog : Nat → ExitStatus)
    (h : ∀ n, (prog n).success = false) (fuel : Nat) :
    runMain prog 255 fuel = none :=
  mainLoop_max255_no_exit prog h fuel 0 0 []

/-- Witness for C2 at a concrete always-failing program. -/
theorem claim2_budget255_never_terminates_witness :
    runMain (fun _ => ⟨some 2⟩) 255 300 = none :=
  claim2_budget255_never_terminates (fun _ => ⟨some 2⟩) (fun _ => rfl) 300

/-- Claim C9 (confirmed): with budget at least 1, a first launch that
exits non-zero and a second launch that exits 0, the loop performs exactly
2 attempts, prints the single line `Retry attempt: 1`, and the process
exits with code 0. -/
theorem claim9_success_on_second_attempt (prog : Nat → ExitStatus)
    (B fuel : Nat)
    (hB : 1 ≤ B)
    (h0 : (prog 0).success = false)
    (h1 : (prog 1).code = some 0) :
    runMain prog B (fuel + 2) = some ⟨2, [1], 0⟩ := by
  have h1s : (prog 1).success = true := by
    unfold ExitStatus.success
    rw [h1]
    rfl
  have hc1 : ¬ ((prog 0).success = true ∨ (0 + 1) % 256 > B) := by
    rw [h0]
    simp
    omega
  unfold runMain
  simp only [mainLoop]
  rw [if_neg hc1]
  norm_num
  rw [if_pos (Or.inl h1s), h1]
  norm_num

/-- Child failing on the first attempt and succeeding on the second. -/
def progSecond : Nat → ExitStatus :=
  fun n => if n = 0 then ⟨some 7⟩ else ⟨some 0⟩

/-- Witness for C9 at budget 3 and the concrete child `progSecond`. -/
theorem claim9_success_on_second_attempt_witness :
    runMain progSecond 3 2 = some ⟨2, [1], 0⟩ :=
  claim9_success_on_second_attempt progSecond 3 0 (by omega) rfl rfl

/-! Scratch-directory trace theorems. -/

/-- Applying a concatenated event sequence is applying each part in
turn. -/
theorem applyAll_append (s : List String) (l1 l2 : List FsEvent) :
    applyAll s (l1 ++ l2) = applyAll (applyAll s l1) l2 :=
  List.foldl_append _ _ _ _

/-- A state observed along a concatenated event sequence is observed along
the first part, or along the second part started from the first part's
final state. -/
theorem statesAlong_mem_append :
    ∀ (l1 l2 : List FsEvent) (s st : List String),
      st ∈ statesAlong s (l1 ++ l2) →
      st ∈ statesAlong s l1 ∨ st ∈ statesAlong (applyAll s l1) l2 := by
  intro l1
  induction l1 with
  | nil =>
    intro l2 s st h
    right
    exact h
  | cons e l1 ih =>
    intro l2 s st h
    rw [List.cons_append] at h
    rcases List.mem_cons.mp h with heq | hmem
    · left
      rw [heq]
      exact List.mem_cons_self _ _
    · rcases ih l2 (applyEvent s e) st hmem with h1 | h1
      · left
        exact List.mem_cons_of_mem _ h1
      · right
        exact h1

/-- After every whole number of attempts, no scratch directory is live. -/
theorem applyAll_scratchTrace (dirs : Nat → String) :
    ∀ n, applyAll [] (scratchTrace dirs n) = [] := by
  intro n
  induction n with
  | zero => rfl
  | succ n ih =>
    show applyAll [] (scratchTrace dirs n ++ attemptEvents (dirs n)) = []
    rw [applyAll_append, ih]
    simp [applyAll, attemptEvents, applyEvent]

/-- Along the trace of any number of attempts, at most one scratch
directory is ever live. -/
theorem statesAlong_scratchTrace_small (dirs : Nat → String) :
    ∀ n, ∀ st ∈ statesAlong [] (scratchTrace dirs n), st.length ≤ 1 := by
  intro n
  induction n with
  | zero =>
    intro st h
    simp [scratchTrace, statesAlong] at h
    simp [h]
  | succ n ih =>
    intro st h
    rw [show scratchTrace dirs (n + 1) =
      scratchTrace dirs n ++ attemptEvents (dirs n) from rfl] at h
    rcases statesAlong_mem_append _ _ _ _ h with h1 | h1
    · exact ih st h1
    · rw [applyAll_scratchTrace] at h1
      simp [attemptEvents, statesAlong, applyEvent] at h1
      rcases h1 with h1 | h1 | h1 <;> simp [h1]

/-- Distinct attempts receive distinct directory names whenever the
creation primitive hands out injective names. -/
theorem createdDirs_pairwise (dirs : Nat → String)
    (hinj : Function.Injective dirs) (n : Nat) :
    (createdDirs dirs n).Pairwise (fun d1 d2 => d1 ≠ d2) := by
  unfold createdDirs
  have h1 : (List.range n).Pairwise (fun i j => i ≠ j) :=
    (List.pairwise_lt_range n).imp Nat.ne_of_lt
  exact h1.map dirs (fun a b hab he => hab (hinj he))

/-- Claim C7 (confirmed): along the loop's filesystem trace at most one
scratch directory is live at any instant, after each completed attempt no
scratch directory is live, and — given the unique-creation primitive's
contract — the directories of distinct attempts are pairwise distinct. -/
theorem claim7_scratch_isolation (dirs : Nat → String)
    (hinj : Function.Injective dirs) (n : Nat) :
    (∀ st ∈ statesAlong [] (scratchTrace dirs n), st.length ≤ 1) ∧
    (∀ k, applyAll [] (scratchTrace dirs k) = []) ∧
    (createdDirs dirs n).Pairwise (fun d1 d2 => d1 ≠ d2) :=
  ⟨statesAlong_scratchTrace_small dirs n, applyAll_scratchTrace dirs,
    createdDirs_pairwise dirs hinj n⟩

/-- An injective concrete name supply. -/
def dirsRepl : Nat → String :=
  fun k => String.mk (List.replicate k 'd')

/-- The concrete name supply is injective. -/
theorem dirsRepl_injective : Function.Injective dirsRepl := by
  intro a b h
  have h2 : List.replicate a 'd' = List.replicate b 'd' :=
    congrArg String.data h
  have h3 := congrArg List.length h2
  simpa using h3

/-- Witness for C7 with the concrete injective name supply and three
attempts. -/
theorem claim7_scratch_isolation_witness :
    (∀ st ∈ statesAlong [] (scratchTrace dirsRepl 3), st.length ≤ 1) ∧
    (∀ k, applyAll [] (scratchTrace dirsRepl k) = []) ∧
    (createdDirs dirsRepl 3).Pairwise (fun d1 d2 => d1 ≠ d2) :=
  claim7_scratch_isolation dirsRepl dirsRepl_injective 3

/-- Claim C8 (confirmed): for every attempt, the unix launch sets exactly
one environment variable, `TMPDIR`, to the scratch path, and the windows
launch sets both cased variants `TEMP` and `TMP` to that same path —
whichever launch branch the resolved program selects. -/
theorem claim8_child_temp_env (executable tmp_path : String)
    (argv : List String) :
    (try_run_with_new_temp_unix executable tmp_path argv).envVars
      = [("TMPDIR", tmp_path)] ∧
    ((try_run_with_new_temp_windows executable tmp_path argv).envVars.filter
        (fun kv => kv.1 == "TEMP" || kv.1 == "TMP"))
      = [("TEMP", tmp_path), ("TMP", tmp_path)] := by
  constructor
  · unfold try_run_with_new_temp_unix
    by_cases h : is_absolute_path executable = true <;> simp [h]
  · unfold try_run_with_new_temp_windows
    by_cases h : is_absolute_path executable = true <;> simp [h, List.filter]

/-! Shell-quoting theorems. -/

/-- Character-level description of `quote_arg`: quotes are added exactly
around arguments containing a space. -/
theorem quote_arg_data (a : String) :
    (quote_arg a).data =
      if ' ' ∈ a.data then '"' :: (a.data ++ ['"']) else a.data := by
  unfold quote_arg
  by_cases h : ' ' ∈ a.data
  · simp [h, String.data_append]
  · simp [h]

/-- The tokenizer passes over a quoteless, spaceless run of characters,
accumulating it onto the current token. -/
theorem tokGo_plain :
    ∀ (cs : List Char), (∀ c ∈ cs, c ≠ '"' ∧ c ≠ ' ') →
      ∀ rest cur acc,
        tokGo (cs ++ rest) false cur acc = tokGo rest false (cur ++ cs) acc := by
  intro cs
  induction cs with
  | nil =>
    intro _ rest cur acc
    simp
  | cons c cs ih =>
    intro h rest cur acc
    obtain ⟨hq, hs⟩ := h c (by simp)
    have hrec := ih (fun x hx => h x (by simp [hx])) rest (cur ++ [c]) acc
    simp only [List.cons_append, tokGo, List.append_eq]
    rw [if_neg hq, if_neg (fun hx => hs hx.1), hrec]
    simp

/-- Inside a quoted region the tokenizer accumulates every character that
is not a quote, spaces included. -/
theorem tokGo_inquote :
    ∀ (cs : List Char), (∀ c ∈ cs, c ≠ '"') →
      ∀ rest cur acc,
        tokGo (cs ++ rest) true cur acc = tokGo rest true (cur ++ cs) acc := by
  intro cs
  induction cs with
  | nil =>
    intro _ rest cur acc
    simp
  | cons c cs ih =>
    intro h rest cur acc
    have hq := h c (by simp)
    have hrec := ih (fun x hx => h x (by simp [hx])) rest (cur ++ [c]) acc
    simp only [List.cons_append, tokGo, List.append_eq]
    rw [if_neg hq, if_neg (by simp), hrec]
    simp

/-- A quote-delimited region contributes its body to the current token as
a single unbroken run. -/
theorem tokGo_quoted (a : List Char) (hq : ∀ c ∈ a, c ≠ '"')
    (rest cur : List Char) (acc : List (List Char)) :
    tokGo ('"' :: (a ++ ('"' :: rest))) false cur acc =
      tokGo rest false (cur ++ a) acc := by
  simp only [tokGo]
  rw [if_pos (by simp)]
  simp only [Bool.not_false]
  rw [tokGo_inquote a hq ('"' :: rest) cur acc]
  simp only [tokGo]
  rw [if_pos (by simp)]
  simp only [Bool.not_true]

/-- One quoted argument at the front of the remaining command line is
consumed into the current token, whether or not it was wrapped. -/
theorem tokGo_segment (x : String) (_hx : x.data ≠ [])
    (hq : ∀ c ∈ x.data, c ≠ '"') (rest : List Char)
    (acc : List (List Char)) :
    tokGo ((quote_arg x).data ++ rest) false [] acc =
      tokGo rest false x.data acc := by
  rw [quote_arg_data]
  by_cases h : ' ' ∈ x.data
  · rw [if_pos h]
    have hsh : ('"' :: (x.data ++ ['"'])) ++ rest =
        '"' :: (x.data ++ ('"' :: rest)) := by simp
    rw [hsh, tokGo_quoted x.data hq rest [] acc]
    simp
  · rw [if_neg h]
    have hplain : ∀ c ∈ x.data, c ≠ '"' ∧ c ≠ ' ' :=
      fun c hc => ⟨hq c hc, fun he => h (he ▸ hc)⟩
    rw [tokGo_plain x.data hplain rest [] acc]
    simp

/-- The tokenizer turns the space-separated quoted arguments into exactly
the original argument list, appended to the token being formed. -/
theorem tokGo_args :
    ∀ (argv : List String),
      (∀ a ∈ argv, a.data ≠ [] ∧ ∀ c ∈ a.data, c ≠ '"') →
      ∀ cur acc, cur ≠ [] →
        tokGo ((argv.map (fun a => ' ' :: (quote_arg a).data)).flatten)
            false cur acc
          = acc ++ (cur :: argv.map String.data) := by
  intro argv
  induction argv with
  | nil =>
    intro _ cur acc hcur
    simp [tokGo, hcur]
  | cons a argv ih =>
    intro h cur acc hcur
    obtain ⟨hne, hq⟩ := h a (by simp)
    simp only [List.map_cons, List.flatten_cons, List.cons_append]
    simp only [tokGo, List.append_eq]
    rw [if_neg (by decide : ¬ (' ' = '"')), if_pos (by simp), if_neg hcur,
      tokGo_segment a hne hq _ _,
      ih (fun x hx => h x (by simp [hx])) a.data (acc ++ [cur]) hne]
    simp

/-- The command line assembled by the windows branch, at character
level. -/
theorem build_command_line_data (executable : String) (argv : List String) :
    (build_command_line executable argv).data =
      (quote_arg executable).data ++
        (argv.map (fun a => ' ' :: (quote_arg a).data)).flatten := by
  unfold build_command_line
  have hfold : ∀ (l : List String) (init : String),
      (l.foldl (fun acc arg => acc ++ " " ++ quote_arg arg) init).data =
        init.data ++ (l.map (fun a => ' ' :: (quote_arg a).data)).flatten := by
    intro l
    induction l with
    | nil =>
      intro init
      simp
    | cons a l ih =>
      intro init
      simp only [List.foldl_cons, List.map_cons, List.flatten_cons]
      rw [ih, String.data_append, String.data_append]
      simp
  exact hfold argv (quote_arg executable)

/-- Claim C4 (counterexample): an argument containing a tab contains
whitespace but is forwarded unquoted — `quote_arg` wraps only on the
space character, not on whitespace in general. -/
theorem claim4_counterexample :
    ("a\tb".data.any Char.isWhitespace = true) ∧
    quote_arg "a\tb" = "a\tb" ∧
    quote_arg "a\tb" ≠ "\"" ++ "a\tb" ++ "\"" :=
  ⟨rfl, rfl, by decide⟩

/-- Claim C4 (amended): the program name and every forwarded argument is
individually wrapped in quotes exactly when it contains a space
character; consequently, for nonempty quote-free arguments, the command
interpreter's re-tokenization of the assembled command line recovers the
program name and every argument — one containing a space included — as
single unbroken tokens. -/
theorem claim4_space_quoting (executable : String) (argv : List String)
    (hex : executable.data ≠ [])
    (hexq : ∀ c ∈ executable.data, c ≠ '"')
    (hargs : ∀ a ∈ argv, a.data ≠ [] ∧ ∀ c ∈ a.data, c ≠ '"') :
    (∀ a : String,
      ((quote_arg a).data = '"' :: (a.data ++ ['"']) ↔ ' ' ∈ a.data)) ∧
    retokenize (build_command_line executable argv) =
      (executable :: argv).map String.data := by
  constructor
  · intro a
    rw [quote_arg_data]
    constructor
    · intro he
      by_contra h
      rw [if_neg h] at he
      have := congrArg List.length he
      simp at this
      omega
    · intro h
      rw [if_pos h]
  · unfold retokenize
    rw [build_command_line_data, tokGo_segment executable hex hexq _ _,
      tokGo_args argv hargs executable.data [] hex]
    simp

/-- Witness for the amended C4: the argument `a b` survives
re-tokenization as one token alongside the program name `cl`. -/
theorem claim4_space_quoting_witness :
    retokenize (build_command_line "cl" ["a b"]) =
      (["cl", "a b"].map String.data) :=
  (claim4_space_quoting "cl" ["a b"] (by decide) (by decide) (by decide)).2

end Randomtemp
